import Mathlib

/-!
Shallow embedding of `src/tools/svc_watch_dog_client.py` (classes
`SvcWatchDogClient` and `TimeoutDetector`) together with the relevant helper
`gen_tools.empty_if_none`.  The Python module keeps its whole runtime state in
class attributes guarded by one reentrant lock; every public operation and the
body of one iteration of the background loop are single critical sections, so
we model the state as a record and each critical section as a pure function on
it.  Monotonic milliseconds (`gen_tools.steady_time`) are passed in explicitly
as an `Int` argument `now`.
-/

namespace SvcWatchDog

/-- Python `dict[str, int]` preserving insertion order: an association list.
`_tasks` starts as `{}` and is only changed through item assignment and
deletion, so keys stay pairwise distinct. -/
abbrev TaskMap := List (String × Int)

/-- `m[k] = v` on a Python dict: replace the value of an existing key in
place, otherwise append the new binding at the end. -/
def setTask : TaskMap → String → Int → TaskMap
  | [], k, v => [(k, v)]
  | (k0, v0) :: rest, k, v =>
      if k0 = k then (k, v) :: rest else (k0, v0) :: setTask rest k v

/-- `del m[k]` on a Python dict (keys are unique, so deleting every binding of
`k` is the same as deleting the one binding). -/
def delTask : TaskMap → String → TaskMap
  | [], _ => []
  | (k0, v0) :: rest, k =>
      if k0 = k then delTask rest k else (k0, v0) :: delTask rest k

/-- `m[k]` lookup on a Python dict. -/
def getTask : TaskMap → String → Option Int
  | [], _ => none
  | (k0, v0) :: rest, k => if k0 = k then some v0 else getTask rest k

/-- `k in m` on a Python dict. -/
def hasTask (m : TaskMap) (k : String) : Bool :=
  (getTask m k).isSome

/-- `list(m.keys())` on a Python dict (iteration order = insertion order). -/
def keys (m : TaskMap) : List String :=
  m.map (fun p => p.1)

/-- `SvcWatchDogClient.DISTANT_FUTURE`. -/
def DISTANT_FUTURE : Int := 0x7fffffff

/-- The mutable class attributes of `SvcWatchDogClient` (lock, thread handle
and trigger event are concurrency plumbing and carry no registry data).
`udp_ping_task_name` (`_udpPing.<uuid4>`) is fixed once per process and is
passed to the operations as an explicit parameter `hb`. -/
structure ClientState where
  next_check : Int
  stopped : Bool
  tasks : TaskMap
  timed_out_tasks : List String
  enabled : Bool
  udp_ping_interval : Int
  udp_port : Int
  shutdown_event : String
  watchdog_secret : String
deriving DecidableEq

/-- Class-attribute defaults at module load (`_next_check = DISTANT_FUTURE`,
`_stopped = False`, `_tasks = {}`, `_timed_out_tasks = set()`,
`_enabled = True`, `_udp_ping_interval = 0`, `_udp_port = 0`,
`_shutdown_event = ""`, `_watchdog_secret = b""`). -/
def initialState : ClientState :=
  ⟨DISTANT_FUTURE, false, [], [], true, 0, 0, "", ""⟩

/-- `gen_tools.empty_if_none`. -/
def empty_if_none : Option String → String
  | none => ""
  | some s => s

/-- The environment variables read by `start` (`os.getenv` results). -/
structure Env where
  shutdownEvent : Option String
  watchdogSecret : Option String
  watchdogPort : Option String

/-- Decimal value of a digit character list. -/
def digitsToNat (cs : List Char) : Nat :=
  cs.foldl (fun acc d => acc * 10 + (d.toNat - 48)) 0

/-- Result of Python `int(s)` on a string: optionally signed decimal digits
surrounded by whitespace; anything else raises `ValueError` (`none`).
(Exotic acceptances of `int` such as underscore digit grouping or non-ASCII
digits are not modeled.)  Implemented structurally over the character list so
that it evaluates by kernel reduction. -/
def pyInt? (s : String) : Option Int :=
  let t := ((s.data.dropWhile Char.isWhitespace).reverse.dropWhile
    Char.isWhitespace).reverse
  let signDigits : Int × List Char :=
    match t with
    | [] => (1, [])
    | c :: rest =>
        if c = ('-' : Char) then (-1, rest)
        else if c = ('+' : Char) then (1, rest)
        else (1, c :: rest)
  if signDigits.2 ≠ [] ∧ signDigits.2.all Char.isDigit then
    some (signDigits.1 * (digitsToNat signDigits.2 : Nat))
  else none

/-- `SvcWatchDogClient.initialize`: the two configuration keys are passed as
already-read values (`ini.get_bool(SECTION, "Enabled", True)` and
`ini.get_int(SECTION, "UdpPingInterval", 10)`; configuration parsing is out of
scope).  If a `stop` happened before, runtime state is reset. -/
def initializeClient (enabledCfg : Bool) (udpPingIntervalSec : Int)
    (s : ClientState) : ClientState :=
  let s1 := { s with enabled := enabledCfg,
                     udp_ping_interval := udpPingIntervalSec * 1000 }
  if s1.stopped then
    { s1 with stopped := false, next_check := DISTANT_FUTURE,
              tasks := [], timed_out_tasks := [] }
  else s1

/-- `SvcWatchDogClient.start`.  Returns the new state together with the raised
exception message, if any; a raise happens before any mutation, so on the
error path the state is returned unchanged.  The spawning of the background
thread itself carries no registry data and is not modeled. -/
def start (hb : String) (env : Env) (s : ClientState) :
    ClientState × Option String :=
  if s.stopped then
    (s, some ("SvcWatchDogClient is already stopped, not allowed to start it again."))
  else
    let s1 := { s with shutdown_event := empty_if_none env.shutdownEvent }
    if s1.enabled = false then (s1, none)
    else
      let s2 := { s1 with watchdog_secret := empty_if_none env.watchdogSecret }
      match env.watchdogPort with
      | none => (s2, none)
      | some portStr =>
          if portStr = "" then (s2, none)
          else
            match pyInt? portStr with
            | some port =>
                ({ s2 with udp_port := port, tasks := setTask s2.tasks hb 1 }, none)
            | none => ({ s2 with udp_port := 0 }, none)

/-- `SvcWatchDogClient.stop`: only the registry-visible effect (the terminal
flag); joining the worker thread is concurrency plumbing. -/
def stop (s : ClientState) : ClientState :=
  { s with stopped := true }

/-- `SvcWatchDogClient.ping`.  Returns the new state and whether the trigger
event was set (`do_trigger`). -/
def ping (task_name : String) (timeout_seconds : Int) (now : Int)
    (s : ClientState) : ClientState × Bool :=
  if s.enabled = false then (s, false)
  else
    let task_check_time := now + timeout_seconds * 1000
    ({ s with tasks := setTask s.tasks task_name task_check_time },
     decide (task_check_time < s.next_check))

/-- `SvcWatchDogClient.close_timeout`. -/
def close_timeout (task_name : String) (s : ClientState) : ClientState :=
  if hasTask s.tasks task_name then { s with tasks := delTask s.tasks task_name }
  else s

/-- `SvcWatchDogClient.is_timed_out`. -/
def is_timed_out (s : ClientState) : Bool :=
  s.enabled && decide (0 < s.timed_out_tasks.length)

/-- `SvcWatchDogClient.is_udp_pinging_active`. -/
def is_udp_pinging_active (hb : String) (s : ClientState) : Bool :=
  hasTask s.tasks hb

/-- `SvcWatchDogClient.task_list`. -/
def task_list (s : ClientState) : List String :=
  keys s.tasks

/-- The registry data live inside one iteration of `background_loop`:
`_tasks`, `_timed_out_tasks`, `_next_check` plus the two local flags
`timeout_detected` and `udp_ping_needed`. -/
structure ScanState where
  tasks : TaskMap
  timed_out_tasks : List String
  next_check : Int
  timeout_detected : Bool
  udp_ping_needed : Bool
deriving DecidableEq

/-- The `if timeout <= now:` block of `background_loop` for one `name` whose
current deadline is `timeout0`.  Returns the updated state together with the
(possibly rescheduled) value of the local variable `timeout`.  `hb` is
`_udp_ping_task_name`, `itv` is `_udp_ping_interval`. -/
def scanExpire (hb : String) (itv : Int) (now : Int) (name : String)
    (timeout0 : Int) (st : ScanState) : ScanState × Int :=
  if timeout0 ≤ now then
    if name = hb then
      if st.timeout_detected = false then
        ({ st with tasks := setTask st.tasks hb (now + itv),
                   udp_ping_needed := true },
         now + itv)
      else (st, timeout0)
    else if name ∈ st.timed_out_tasks then (st, timeout0)
    else
      ({ st with timed_out_tasks := st.timed_out_tasks ++ [name],
                 timeout_detected := true,
                 tasks := delTask (delTask st.tasks name) hb },
       timeout0)
  else (st, timeout0)

/-- The body of `for name in task_names:` in `background_loop`, for one
`name`: the `continue` guard, the dict lookup, the `if timeout <= now:` block
and the final `if timeout > now and timeout < cls._next_check:` update.
A `name` from the snapshot can be missing from `_tasks` only when it is `hb`
after a latch, which the first branch (`continue`) intercepts, so the
`getTask … = none` case is unreachable and modeled as a skip. -/
def scanTask (hb : String) (itv : Int) (now : Int) (name : String)
    (st : ScanState) : ScanState :=
  if st.timeout_detected = true ∧ name = hb then st
  else
    match getTask st.tasks name with
    | none => st
    | some timeout0 =>
        let r := scanExpire hb itv now name timeout0 st
        if now < r.2 ∧ r.2 < r.1.next_check then
          { r.1 with next_check := r.2 }
        else r.1

/-- The whole `for name in task_names:` loop. -/
def runScan (hb : String) (itv : Int) (now : Int) :
    List String → ScanState → ScanState
  | [], st => st
  | n :: rest, st => runScan hb itv now rest (scanTask hb itv now n st)

/-- One iteration of the critical section of `background_loop`: reset
`_next_check` to `DISTANT_FUTURE`, snapshot the task names, scan them.
Returns the new state plus the local flags `timeout_detected` and
`udp_ping_needed` (which drive the error log respectively the UDP datagram
emitted after the lock is released). -/
def background_loop_iter (hb : String) (now : Int) (s : ClientState) :
    ClientState × Bool × Bool :=
  let st0 : ScanState :=
    ⟨s.tasks, s.timed_out_tasks, DISTANT_FUTURE, false, false⟩
  let st := runScan hb s.udp_ping_interval now (keys s.tasks) st0
  ({ s with tasks := st.tasks, timed_out_tasks := st.timed_out_tasks,
            next_check := st.next_check },
   st.timeout_detected, st.udp_ping_needed)

/-- Interleaving of critical sections within one lifecycle after `start`:
calls of `ping` and `close_timeout` by client threads and iterations of the
background loop, each atomic under the registry lock. -/
inductive Action where
  | ping (name : String) (timeout_seconds : Int) (now : Int)
  | close (name : String)
  | loop (now : Int)
deriving DecidableEq

/-- Effect of one action on the registry state. -/
def step (hb : String) (s : ClientState) : Action → ClientState
  | Action.ping n t now => (ping n t now s).1
  | Action.close n => close_timeout n s
  | Action.loop now => (background_loop_iter hb now s).1

/-- Effect of a sequence of actions. -/
def run (hb : String) (s : ClientState) : List Action → ClientState
  | [] => s
  | a :: rest => run hb (step hb s a) rest

/-! ### Association-list lemmas -/

theorem getTask_setTask_self (m : TaskMap) (k : String) (v : Int) :
    getTask (setTask m k v) k = some v := by
  induction m with
  | nil => simp [setTask, getTask]
  | cons p rest ih =>
      by_cases h : p.1 = k <;> simp [setTask, getTask, h, ih]

theorem getTask_setTask_ne (m : TaskMap) (k k' : String) (v : Int)
    (h : k' ≠ k) : getTask (setTask m k v) k' = getTask m k' := by
  induction m with
  | nil => simp [setTask, getTask, Ne.symm h]
  | cons p rest ih =>
      by_cases h1 : p.1 = k
      · simp [setTask, getTask, h1, Ne.symm h]
      · by_cases h2 : p.1 = k' <;> simp [setTask, getTask, h1, h2, h, ih]

theorem getTask_delTask_self (m : TaskMap) (k : String) :
    getTask (delTask m k) k = none := by
  induction m with
  | nil => simp [delTask, getTask]
  | cons p rest ih =>
      by_cases h : p.1 = k <;> simp [delTask, getTask, h, ih]

theorem getTask_delTask_ne (m : TaskMap) (k k' : String)
    (h : k' ≠ k) : getTask (delTask m k) k' = getTask m k' := by
  induction m with
  | nil => simp [delTask, getTask]
  | cons p rest ih =>
      by_cases h1 : p.1 = k
      · simp [delTask, getTask, h1, Ne.symm h, ih]
      · by_cases h2 : p.1 = k' <;> simp [delTask, getTask, h1, h2, h, ih]

theorem hasTask_setTask_self (m : TaskMap) (k : String) (v : Int) :
    hasTask (setTask m k v) k = true := by
  simp [hasTask, getTask_setTask_self]

theorem hasTask_setTask_ne (m : TaskMap) (k k' : String) (v : Int)
    (h : k' ≠ k) : hasTask (setTask m k v) k' = hasTask m k' := by
  simp [hasTask, getTask_setTask_ne m k k' v h]

theorem hasTask_delTask_self (m : TaskMap) (k : String) :
    hasTask (delTask m k) k = false := by
  simp [hasTask, getTask_delTask_self]

theorem hasTask_delTask_ne (m : TaskMap) (k k' : String)
    (h : k' ≠ k) : hasTask (delTask m k) k' = hasTask m k' := by
  simp [hasTask, getTask_delTask_ne m k k' h]

theorem mem_delTask {m : TaskMap} {k : String} {p : String × Int} :
    p ∈ delTask m k ↔ p ∈ m ∧ p.1 ≠ k := by
  induction m with
  | nil => simp [delTask]
  | cons q rest ih =>
      by_cases h : q.1 = k
      · simp only [delTask, if_pos h, ih, List.mem_cons]
        constructor
        · exact fun hp => ⟨Or.inr hp.1, hp.2⟩
        · rintro ⟨hp | hp, hne⟩
          · exact absurd (hp ▸ h) hne
          · exact ⟨hp, hne⟩
      · simp only [delTask, if_neg h, List.mem_cons, ih]
        constructor
        · rintro (hp | ⟨hp, hne⟩)
          · exact ⟨Or.inl hp, hp ▸ h⟩
          · exact ⟨Or.inr hp, hne⟩
        · rintro ⟨hp | hp, hne⟩
          · exact Or.inl hp
          · exact Or.inr ⟨hp, hne⟩

theorem delTask_sublist (m : TaskMap) (k : String) : (delTask m k).Sublist m := by
  induction m with
  | nil => simp [delTask]
  | cons q rest ih =>
      by_cases h : q.1 = k
      · simpa [delTask, h] using ih.cons q
      · simpa [delTask, h] using ih.cons₂ q

theorem keys_delTask_nodup {m : TaskMap} (k : String)
    (h : (keys m).Nodup) : (keys (delTask m k)).Nodup := by
  exact ((delTask_sublist m k).map (fun p : String × Int => p.1)).nodup h

theorem mem_keys_setTask {m : TaskMap} {k x : String} {v : Int}
    (h : x ∈ keys (setTask m k v)) : x = k ∨ x ∈ keys m := by
  induction m with
  | nil => simpa [setTask, keys] using h
  | cons q rest ih =>
      by_cases h1 : q.1 = k
      · simp only [setTask, if_pos h1, keys, List.map_cons, List.mem_cons] at h
        rcases h with h | h
        · exact Or.inl h
        · exact Or.inr (by simp [keys] at h ⊢; exact Or.inr h)
      · simp only [setTask, if_neg h1, keys, List.map_cons, List.mem_cons] at h
        rcases h with h | h
        · exact Or.inr (by simp [keys, h])
        · rcases ih (by simpa [keys] using h) with h2 | h2
          · exact Or.inl h2
          · exact Or.inr (by simp [keys] at h2 ⊢; exact Or.inr h2)

theorem keys_setTask_nodup {m : TaskMap} (k : String) (v : Int)
    (h : (keys m).Nodup) : (keys (setTask m k v)).Nodup := by
  induction m with
  | nil => simp [setTask, keys]
  | cons q rest ih =>
      by_cases h1 : q.1 = k
      · simp only [setTask, if_pos h1, keys, List.map_cons, List.nodup_cons] at h ⊢
        exact ⟨h1 ▸ h.1, h.2⟩
      · simp only [setTask, if_neg h1, keys, List.map_cons, List.nodup_cons] at h ⊢
        refine ⟨fun hmem => ?_, ih h.2⟩
        rcases mem_keys_setTask (by simpa [keys] using hmem) with h2 | h2
        · exact h1 h2
        · exact h.1 (by simpa [keys] using h2)

theorem mem_setTask_of_nodup {m : TaskMap} {k : String} {v : Int}
    {p : String × Int} (hnd : (keys m).Nodup) (h : p ∈ setTask m k v) :
    p = (k, v) ∨ (p ∈ m ∧ p.1 ≠ k) := by
  induction m with
  | nil => simp only [setTask, List.mem_singleton] at h; exact Or.inl h
  | cons q rest ih =>
      simp only [keys, List.map_cons, List.nodup_cons] at hnd
      by_cases h1 : q.1 = k
      · simp only [setTask, if_pos h1, List.mem_cons] at h
        rcases h with h | h
        · exact Or.inl h
        · refine Or.inr ⟨List.mem_cons_of_mem q h, fun hk => ?_⟩
          exact hnd.1 (h1 ▸ hk ▸ List.mem_map_of_mem (fun r => r.1) h)
      · simp only [setTask, if_neg h1, List.mem_cons] at h
        rcases h with h | h
        · exact Or.inr ⟨h ▸ List.mem_cons_self q rest, h ▸ h1⟩
        · rcases ih hnd.2 h with h2 | ⟨h2, h3⟩
          · exact Or.inl h2
          · exact Or.inr ⟨List.mem_cons_of_mem q h2, h3⟩

theorem mem_of_getTask {m : TaskMap} {k : String} {v : Int}
    (h : getTask m k = some v) : (k, v) ∈ m := by
  induction m with
  | nil => simp [getTask] at h
  | cons q rest ih =>
      cases q with
      | mk a b =>
          by_cases h1 : a = k
          · simp only [getTask, if_pos h1] at h
            cases h
            subst h1
            exact List.mem_cons_self _ _
          · simp only [getTask, h1, if_false, if_neg h1] at h
            exact List.mem_cons_of_mem _ (ih h)

theorem getTask_eq_of_mem_nodup {m : TaskMap} {k : String} {v : Int}
    (hnd : (keys m).Nodup) (h : (k, v) ∈ m) : getTask m k = some v := by
  induction m with
  | nil => simp at h
  | cons q rest ih =>
      simp only [keys, List.map_cons, List.nodup_cons] at hnd
      rcases List.mem_cons.mp h with h1 | h1
      · cases h1; simp [getTask]
      · have hne : q.1 ≠ k := fun hk =>
          hnd.1 (hk ▸ List.mem_map_of_mem (fun r => r.1) h1)
        simp [getTask, hne, ih hnd.2 h1]

theorem hasTask_iff_mem_keys {m : TaskMap} {k : String} :
    hasTask m k = true ↔ k ∈ keys m := by
  induction m with
  | nil => simp [hasTask, getTask, keys]
  | cons q rest ih =>
      simp only [keys, List.map_cons, List.mem_cons]
      by_cases h : q.1 = k
      · simp [hasTask, getTask, h]
      · have ih' : hasTask rest k = true ↔ k ∈ List.map (fun p => p.1) rest := ih
        simp only [hasTask, getTask, if_neg h]
        constructor
        · intro hh
          exact Or.inr (ih'.mp hh)
        · rintro (hq | hq)
          · exact absurd hq.symm h
          · exact ih'.mpr hq

theorem length_le_setTask (m : TaskMap) (k : String) (v : Int) :
    m.length ≤ (setTask m k v).length := by
  induction m with
  | nil => simp [setTask]
  | cons q rest ih =>
      by_cases h : q.1 = k
      · simp [setTask, h]
      · simp only [setTask, if_neg h, List.length_cons]
        omega

theorem mem_keys_of_mem {m : TaskMap} {p : String × Int}
    (h : p ∈ m) : p.1 ∈ keys m :=
  List.mem_map_of_mem (fun r => r.1) h

/-! ### Case analysis of one scan step -/

theorem scanExpire_cases (hb : String) (itv now : Int) (n : String)
    (t0 : Int) (st : ScanState) :
    (scanExpire hb itv now n t0 st = (st, t0)) ∨
    (t0 ≤ now ∧ n = hb ∧ st.timeout_detected = false ∧
      scanExpire hb itv now n t0 st =
        ({ st with tasks := setTask st.tasks hb (now + itv),
                   udp_ping_needed := true }, now + itv)) ∨
    (t0 ≤ now ∧ n ≠ hb ∧ n ∉ st.timed_out_tasks ∧
      scanExpire hb itv now n t0 st =
        ({ st with timed_out_tasks := st.timed_out_tasks ++ [n],
                   timeout_detected := true,
                   tasks := delTask (delTask st.tasks n) hb }, t0)) := by
  unfold scanExpire
  by_cases h1 : t0 ≤ now
  · rw [if_pos h1]
    by_cases h2 : n = hb
    · rw [if_pos h2]
      by_cases h3 : st.timeout_detected = false
      · rw [if_pos h3]
        exact Or.inr (Or.inl ⟨h1, h2, h3, rfl⟩)
      · rw [if_neg h3]
        exact Or.inl rfl
    · rw [if_neg h2]
      by_cases h4 : n ∈ st.timed_out_tasks
      · rw [if_pos h4]
        exact Or.inl rfl
      · rw [if_neg h4]
        exact Or.inr (Or.inr ⟨h1, h2, h4, rfl⟩)
  · rw [if_neg h1]
    exact Or.inl rfl

theorem scanTask_cases (hb : String) (itv now : Int) (n : String)
    (st : ScanState) :
    (scanTask hb itv now n st = st ∧
      ((st.timeout_detected = true ∧ n = hb) ∨ getTask st.tasks n = none)) ∨
    (∃ t0 r, getTask st.tasks n = some t0 ∧
      r = scanExpire hb itv now n t0 st ∧
      ¬(st.timeout_detected = true ∧ n = hb) ∧
      ((¬(now < r.2 ∧ r.2 < r.1.next_check) ∧ scanTask hb itv now n st = r.1) ∨
       (now < r.2 ∧ r.2 < r.1.next_check ∧
        scanTask hb itv now n st = { r.1 with next_check := r.2 }))) := by
  by_cases hguard : st.timeout_detected = true ∧ n = hb
  · exact Or.inl ⟨by simp [scanTask, hguard], Or.inl hguard⟩
  · cases heq : getTask st.tasks n with
    | none => exact Or.inl ⟨by simp [scanTask, hguard, heq], Or.inr rfl⟩
    | some t0 =>
        by_cases hc : now < (scanExpire hb itv now n t0 st).2 ∧
            (scanExpire hb itv now n t0 st).2 <
              (scanExpire hb itv now n t0 st).1.next_check
        · refine Or.inr ⟨t0, scanExpire hb itv now n t0 st, rfl, rfl, hguard,
            Or.inr ⟨hc.1, hc.2, ?_⟩⟩
          simp [scanTask, hguard, heq, hc]
        · refine Or.inr ⟨t0, scanExpire hb itv now n t0 st, rfl, rfl, hguard,
            Or.inl ⟨hc, ?_⟩⟩
          simp [scanTask, hguard, heq, hc]

/-! ### Per-step invariants of the scan -/

theorem scanTask_next_check_le (hb : String) (itv now : Int) (n : String)
    (st : ScanState) :
    (scanTask hb itv now n st).next_check ≤ st.next_check := by
  rcases scanTask_cases hb itv now n st with ⟨heq, _⟩ | ⟨t0, r, _, hr, _, hres⟩
  · rw [heq]
  · have hnc : r.1.next_check = st.next_check := by
      rcases scanExpire_cases hb itv now n t0 st with h | ⟨_, _, _, h⟩ | ⟨_, _, _, h⟩ <;>
        rw [hr, h]
    rcases hres with ⟨_, heq⟩ | ⟨_, hlt, heq⟩
    · rw [heq, hnc]
    · rw [heq]
      exact le_of_lt (hnc ▸ hlt)

theorem scanTask_td_mono (hb : String) (itv now : Int) (n : String)
    (st : ScanState) (h : st.timeout_detected = true) :
    (scanTask hb itv now n st).timeout_detected = true := by
  rcases scanTask_cases hb itv now n st with ⟨heq, _⟩ | ⟨t0, r, _, hr, _, hres⟩
  · rw [heq]; exact h
  · have htd : r.1.timeout_detected = true := by
      rcases scanExpire_cases hb itv now n t0 st with hc | ⟨_, _, hf, _⟩ | ⟨_, _, _, hc⟩
      · rw [hr, hc]; exact h
      · rw [h] at hf; cases hf
      · rw [hr, hc]
    rcases hres with ⟨_, heq⟩ | ⟨_, _, heq⟩ <;> rw [heq] <;> exact htd

theorem scanTask_timed_out_mono (hb : String) (itv now : Int) (n : String)
    (st : ScanState) (x : String) (h : x ∈ st.timed_out_tasks) :
    x ∈ (scanTask hb itv now n st).timed_out_tasks := by
  rcases scanTask_cases hb itv now n st with ⟨heq, _⟩ | ⟨t0, r, _, hr, _, hres⟩
  · rw [heq]; exact h
  · have hto : x ∈ r.1.timed_out_tasks := by
      rcases scanExpire_cases hb itv now n t0 st with hc | ⟨_, _, _, hc⟩ | ⟨_, _, _, hc⟩ <;>
        rw [hr, hc]
      · exact h
      · exact h
      · exact List.mem_append_left _ h
    rcases hres with ⟨_, heq⟩ | ⟨_, _, heq⟩ <;> rw [heq] <;> exact hto

theorem scanTask_no_latch (hb : String) (itv now : Int) (n : String)
    (st : ScanState) (h : (scanTask hb itv now n st).timeout_detected = false) :
    (scanTask hb itv now n st).timed_out_tasks = st.timed_out_tasks ∧
      st.tasks.length ≤ (scanTask hb itv now n st).tasks.length := by
  rcases scanTask_cases hb itv now n st with ⟨heq, _⟩ | ⟨t0, r, _, hr, _, hres⟩
  · rw [heq]; exact ⟨rfl, le_refl _⟩
  · have hgoal : r.1.timeout_detected = false →
        r.1.timed_out_tasks = st.timed_out_tasks ∧
          st.tasks.length ≤ r.1.tasks.length := by
      rcases scanExpire_cases hb itv now n t0 st with hc | ⟨_, _, _, hc⟩ | ⟨_, _, _, hc⟩ <;>
        rw [hr, hc] <;> intro htd
      · exact ⟨rfl, le_refl _⟩
      · exact ⟨rfl, length_le_setTask _ _ _⟩
      · cases htd
    rcases hres with ⟨_, heq⟩ | ⟨_, _, heq⟩ <;> rw [heq] at h ⊢ <;> exact hgoal h

theorem scanTask_hb_absent_mono (hb : String) (itv now : Int) (n : String)
    (st : ScanState) (h : hasTask st.tasks hb = false) :
    hasTask (scanTask hb itv now n st).tasks hb = false := by
  rcases scanTask_cases hb itv now n st with ⟨heq, _⟩ | ⟨t0, r, hget, hr, _, hres⟩
  · rw [heq]; exact h
  · have habs : hasTask r.1.tasks hb = false := by
      rcases scanExpire_cases hb itv now n t0 st with hc | ⟨_, hn, _, hc⟩ | ⟨_, _, _, hc⟩ <;>
        rw [hr, hc]
      · exact h
      · rw [hn] at hget
        simp [hasTask, hget] at h
      · exact hasTask_delTask_self _ _
    rcases hres with ⟨_, heq⟩ | ⟨_, _, heq⟩ <;> rw [heq] <;> exact habs

theorem scanTask_hb_absent_of_td (hb : String) (itv now : Int) (n : String)
    (st : ScanState)
    (h : st.timeout_detected = true → hasTask st.tasks hb = false)
    (htd : (scanTask hb itv now n st).timeout_detected = true) :
    hasTask (scanTask hb itv now n st).tasks hb = false := by
  rcases scanTask_cases hb itv now n st with ⟨heq, _⟩ | ⟨t0, r, hget, hr, _, hres⟩
  · rw [heq] at htd ⊢; exact h htd
  · have hgoal : r.1.timeout_detected = true → hasTask r.1.tasks hb = false := by
      rcases scanExpire_cases hb itv now n t0 st with hc | ⟨_, _, hf, hc⟩ | ⟨_, _, _, hc⟩ <;>
        rw [hr, hc] <;> intro htd1
      · exact h htd1
      · exact scanTask_hb_absent_mono hb itv now n st (h (by simpa using htd1)) |>.symm ▸
          (by
            rw [hf] at htd1
            cases htd1)
      · exact hasTask_delTask_self _ _
    rcases hres with ⟨_, heq⟩ | ⟨_, _, heq⟩ <;> rw [heq] at htd ⊢ <;> exact hgoal htd

theorem scanTask_keys_nodup (hb : String) (itv now : Int) (n : String)
    (st : ScanState) (h : (keys st.tasks).Nodup) :
    (keys (scanTask hb itv now n st).tasks).Nodup := by
  rcases scanTask_cases hb itv now n st with ⟨heq, _⟩ | ⟨t0, r, _, hr, _, hres⟩
  · rw [heq]; exact h
  · have hnd : (keys r.1.tasks).Nodup := by
      rcases scanExpire_cases hb itv now n t0 st with hc | ⟨_, _, _, hc⟩ | ⟨_, _, _, hc⟩ <;>
        rw [hr, hc]
      · exact h
      · exact keys_setTask_nodup _ _ h
      · exact keys_delTask_nodup _ (keys_delTask_nodup _ h)
    rcases hres with ⟨_, heq⟩ | ⟨_, _, heq⟩ <;> rw [heq] <;> exact hnd

theorem getTask_of_mem_nodup {m : TaskMap} {p : String × Int}
    (hnd : (keys m).Nodup) (hp : p ∈ m) : getTask m p.1 = some p.2 :=
  getTask_eq_of_mem_nodup hnd (by simpa using hp)

/-- One scan step preserves the next-check coverage: every entry whose name
has already been processed (is not among the remaining snapshot names) and
whose deadline is still in the future is bounded below by `next_check`. -/
theorem scanTask_cov (hb : String) (itv now : Int) (n : String)
    (rest : List String) (st : ScanState)
    (hnd : (keys st.tasks).Nodup)
    (habs : st.timeout_detected = true → hasTask st.tasks hb = false)
    (hcov : ∀ p ∈ st.tasks, p.1 ∉ (n :: rest) → now < p.2 → st.next_check ≤ p.2) :
    ∀ p ∈ (scanTask hb itv now n st).tasks, p.1 ∉ rest → now < p.2 →
      (scanTask hb itv now n st).next_check ≤ p.2 := by
  rcases scanTask_cases hb itv now n st with ⟨heq, hA⟩ | ⟨t0, r, hget, hr, hguard, hres⟩
  · rw [heq]
    intro p hp hnr hnow
    by_cases hpn : p.1 = n
    · rcases hA with ⟨htd, hnb⟩ | hnone
      · have hmem : hasTask st.tasks hb = true :=
          hasTask_iff_mem_keys.mpr (hnb ▸ hpn ▸ mem_keys_of_mem hp)
        rw [habs htd] at hmem
        cases hmem
      · have hsome := getTask_of_mem_nodup hnd hp
        rw [hpn, hnone] at hsome
        cases hsome
    · exact hcov p hp (by simp [hnr, hpn]) hnow
  · rcases hres with ⟨hnc, heq⟩ | ⟨hlt1, hlt2, heq⟩
    · rw [heq]
      rcases scanExpire_cases hb itv now n t0 st with hc | ⟨ht0, hn, htd, hc⟩ |
          ⟨ht0, hn, hnm, hc⟩ <;> obtain rfl : r = _ := hr.trans hc <;>
        dsimp only at hnc ⊢
      · intro p hp hnr hnow
        by_cases hpn : p.1 = n
        · have hsome := getTask_of_mem_nodup hnd hp
          rw [hpn, hget] at hsome
          injection hsome with hsome
          have hnow' : now < t0 := by omega
          have hge : ¬(t0 < st.next_check) := fun hx => hnc ⟨hnow', hx⟩
          omega
        · exact hcov p hp (by simp [hnr, hpn]) hnow
      · intro p hp hnr hnow
        rcases mem_setTask_of_nodup hnd hp with hpe | ⟨hpm, hpne⟩
        · subst hpe
          dsimp only at hnow ⊢
          have hge : ¬(now + itv < st.next_check) := fun hx => hnc ⟨hnow, hx⟩
          omega
        · refine hcov p hpm ?_ hnow
          simp only [List.mem_cons, not_or]
          exact ⟨fun hx => hpne (hx.trans hn), hnr⟩
      · intro p hp hnr hnow
        obtain ⟨hp1, hpb⟩ := mem_delTask.mp hp
        obtain ⟨hp2, hpn⟩ := mem_delTask.mp hp1
        exact hcov p hp2 (by simp [hnr, hpn]) hnow
    · rw [heq]
      rcases scanExpire_cases hb itv now n t0 st with hc | ⟨ht0, hn, htd, hc⟩ |
          ⟨ht0, hn, hnm, hc⟩ <;> obtain rfl : r = _ := hr.trans hc <;>
        dsimp only at hlt1 hlt2 ⊢
      · intro p hp hnr hnow
        by_cases hpn : p.1 = n
        · have hsome := getTask_of_mem_nodup hnd hp
          rw [hpn, hget] at hsome
          injection hsome with hsome
          omega
        · have := hcov p hp (by simp [hnr, hpn]) hnow
          omega
      · intro p hp hnr hnow
        rcases mem_setTask_of_nodup hnd hp with hpe | ⟨hpm, hpne⟩
        · subst hpe
          dsimp only
          omega
        · have hlem := hcov p hpm (by
            simp only [List.mem_cons, not_or]
            exact ⟨fun hx => hpne (hx.trans hn), hnr⟩) hnow
          omega
      · exact absurd hlt1 (by omega)

theorem scanTask_timed_out_nodup (hb : String) (itv now : Int) (n : String)
    (st : ScanState) (h : st.timed_out_tasks.Nodup) :
    (scanTask hb itv now n st).timed_out_tasks.Nodup := by
  rcases scanTask_cases hb itv now n st with ⟨heq, _⟩ | ⟨t0, r, _, hr, _, hres⟩
  · rw [heq]; exact h
  · have hnd : r.1.timed_out_tasks.Nodup := by
      rcases scanExpire_cases hb itv now n t0 st with hc | ⟨_, _, _, hc⟩ | ⟨_, _, hnm, hc⟩ <;>
        rw [hr, hc]
      · exact h
      · exact h
      · simpa [List.nodup_append] using ⟨h, hnm⟩
    rcases hres with ⟨_, heq⟩ | ⟨_, _, heq⟩ <;> rw [heq] <;> exact hnd

/-! ### Whole-scan invariants -/

theorem runScan_td_mono (hb : String) (itv now : Int) (names : List String)
    (st : ScanState) (h : st.timeout_detected = true) :
    (runScan hb itv now names st).timeout_detected = true := by
  induction names generalizing st with
  | nil => exact h
  | cons n rest ih => exact ih _ (scanTask_td_mono hb itv now n st h)

theorem runScan_timed_out_mono (hb : String) (itv now : Int)
    (names : List String) (st : ScanState) (x : String)
    (h : x ∈ st.timed_out_tasks) :
    x ∈ (runScan hb itv now names st).timed_out_tasks := by
  induction names generalizing st with
  | nil => exact h
  | cons n rest ih => exact ih _ (scanTask_timed_out_mono hb itv now n st x h)

theorem runScan_no_latch (hb : String) (itv now : Int) (names : List String)
    (st : ScanState)
    (h : (runScan hb itv now names st).timeout_detected = false) :
    (runScan hb itv now names st).timed_out_tasks = st.timed_out_tasks ∧
      st.tasks.length ≤ (runScan hb itv now names st).tasks.length := by
  induction names generalizing st with
  | nil => exact ⟨rfl, le_refl _⟩
  | cons n rest ih =>
      have hstep : (scanTask hb itv now n st).timeout_detected = false := by
        by_contra hx
        rw [runScan, runScan_td_mono hb itv now rest _
          (Bool.not_eq_false _ |>.mp hx)] at h
        cases h
      obtain ⟨h1, h2⟩ := scanTask_no_latch hb itv now n st hstep
      obtain ⟨h3, h4⟩ := ih (scanTask hb itv now n st) h
      exact ⟨h3.trans h1, h2.trans h4⟩

theorem runScan_hb_absent_mono (hb : String) (itv now : Int)
    (names : List String) (st : ScanState)
    (h : hasTask st.tasks hb = false) :
    hasTask (runScan hb itv now names st).tasks hb = false := by
  induction names generalizing st with
  | nil => exact h
  | cons n rest ih => exact ih _ (scanTask_hb_absent_mono hb itv now n st h)

theorem runScan_hb_absent_of_td (hb : String) (itv now : Int)
    (names : List String) (st : ScanState)
    (h : st.timeout_detected = true → hasTask st.tasks hb = false)
    (htd : (runScan hb itv now names st).timeout_detected = true) :
    hasTask (runScan hb itv now names st).tasks hb = false := by
  induction names generalizing st with
  | nil => exact h htd
  | cons n rest ih =>
      exact ih (scanTask hb itv now n st)
        (scanTask_hb_absent_of_td hb itv now n st h) htd

theorem runScan_keys_nodup (hb : String) (itv now : Int)
    (names : List String) (st : ScanState) (h : (keys st.tasks).Nodup) :
    (keys (runScan hb itv now names st).tasks).Nodup := by
  induction names generalizing st with
  | nil => exact h
  | cons n rest ih => exact ih _ (scanTask_keys_nodup hb itv now n st h)

theorem runScan_timed_out_nodup (hb : String) (itv now : Int)
    (names : List String) (st : ScanState) (h : st.timed_out_tasks.Nodup) :
    (runScan hb itv now names st).timed_out_tasks.Nodup := by
  induction names generalizing st with
  | nil => exact h
  | cons n rest ih => exact ih _ (scanTask_timed_out_nodup hb itv now n st h)

theorem runScan_cov (hb : String) (itv now : Int) (names : List String)
    (st : ScanState) (hnd : (keys st.tasks).Nodup)
    (habs : st.timeout_detected = true → hasTask st.tasks hb = false)
    (hcov : ∀ p ∈ st.tasks, p.1 ∉ names → now < p.2 → st.next_check ≤ p.2) :
    ∀ p ∈ (runScan hb itv now names st).tasks, now < p.2 →
      (runScan hb itv now names st).next_check ≤ p.2 := by
  induction names generalizing st with
  | nil =>
      intro p hp hnow
      exact hcov p hp (by simp) hnow
  | cons n rest ih =>
      exact ih (scanTask hb itv now n st)
        (scanTask_keys_nodup hb itv now n st hnd)
        (scanTask_hb_absent_of_td hb itv now n st habs)
        (scanTask_cov hb itv now n rest st hnd habs hcov)

/-! ### Invariants of one background-loop iteration -/

theorem bg_iter_timed_out_mono (hb : String) (now : Int) (s : ClientState)
    (x : String) (h : x ∈ s.timed_out_tasks) :
    x ∈ (background_loop_iter hb now s).1.timed_out_tasks :=
  runScan_timed_out_mono hb s.udp_ping_interval now (keys s.tasks) _ x h

theorem bg_iter_enabled (hb : String) (now : Int) (s : ClientState) :
    (background_loop_iter hb now s).1.enabled = s.enabled := rfl

theorem bg_iter_keys_nodup (hb : String) (now : Int) (s : ClientState)
    (h : (keys s.tasks).Nodup) :
    (keys (background_loop_iter hb now s).1.tasks).Nodup :=
  runScan_keys_nodup hb s.udp_ping_interval now (keys s.tasks) _ h

theorem bg_iter_timed_out_nodup (hb : String) (now : Int) (s : ClientState)
    (h : s.timed_out_tasks.Nodup) :
    (background_loop_iter hb now s).1.timed_out_tasks.Nodup :=
  runScan_timed_out_nodup hb s.udp_ping_interval now (keys s.tasks) _ h

/-- If a latched name forces the heartbeat task out before the iteration, it
stays out after the iteration; and a latch during the iteration removes it. -/
theorem bg_iter_hb_out (hb : String) (now : Int) (s : ClientState)
    (hJ : s.timed_out_tasks ≠ [] → hasTask s.tasks hb = false)
    (hne : (background_loop_iter hb now s).1.timed_out_tasks ≠ []) :
    hasTask (background_loop_iter hb now s).1.tasks hb = false := by
  by_cases h0 : s.timed_out_tasks = []
  · by_cases htd : (background_loop_iter hb now s).2.1 = true
    · exact runScan_hb_absent_of_td hb s.udp_ping_interval now (keys s.tasks) _
        (by intro hx; cases hx) htd
    · have hfalse : (runScan hb s.udp_ping_interval now (keys s.tasks)
          ⟨s.tasks, s.timed_out_tasks, DISTANT_FUTURE, false, false⟩).timeout_detected
            = false := Bool.not_eq_true _ |>.mp htd
      obtain ⟨hsame, _⟩ :=
        runScan_no_latch hb s.udp_ping_interval now (keys s.tasks) _ hfalse
      exact absurd (show (background_loop_iter hb now s).1.timed_out_tasks = []
        from hsame.trans h0) hne
  · exact runScan_hb_absent_mono hb s.udp_ping_interval now (keys s.tasks) _ (hJ h0)

theorem bg_iter_cov (hb : String) (now : Int) (s : ClientState)
    (hnd : (keys s.tasks).Nodup) :
    ∀ p ∈ (background_loop_iter hb now s).1.tasks, now < p.2 →
      (background_loop_iter hb now s).1.next_check ≤ p.2 := by
  intro p hp hnow
  exact runScan_cov hb s.udp_ping_interval now (keys s.tasks)
    ⟨s.tasks, s.timed_out_tasks, DISTANT_FUTURE, false, false⟩ hnd
    (by intro hx; cases hx)
    (by
      intro q hq hqk
      exact absurd (mem_keys_of_mem hq) hqk) p hp hnow

theorem bg_iter_empty_sentinel (hb : String) (now : Int) (s : ClientState)
    (htd : (background_loop_iter hb now s).2.1 = false)
    (hempty : (background_loop_iter hb now s).1.tasks = []) :
    (background_loop_iter hb now s).1.next_check = DISTANT_FUTURE := by
  obtain ⟨_, hlen⟩ :=
    runScan_no_latch hb s.udp_ping_interval now (keys s.tasks)
      ⟨s.tasks, s.timed_out_tasks, DISTANT_FUTURE, false, false⟩ htd
  have hnil : s.tasks = [] := by
    have : s.tasks.length = 0 := by
      have h0 : (runScan hb s.udp_ping_interval now (keys s.tasks)
          ⟨s.tasks, s.timed_out_tasks, DISTANT_FUTURE, false, false⟩).tasks = [] :=
        hempty
      rw [h0] at hlen
      simpa using hlen
    exact List.length_eq_zero.mp this
  show (runScan hb s.udp_ping_interval now (keys s.tasks)
      ⟨s.tasks, s.timed_out_tasks, DISTANT_FUTURE, false, false⟩).next_check = _
  rw [show keys s.tasks = [] from by rw [hnil]; rfl]
  rfl

/-! ### Trace-level lemmas -/

/-- Name pinged by an action, when the action is a ping. -/
def Action.pingName : Action → Option String
  | Action.ping n _ _ => some n
  | _ => none

theorem step_enabled (hb : String) (s : ClientState) (a : Action) :
    (step hb s a).enabled = s.enabled := by
  cases a with
  | ping n t now =>
      by_cases h : s.enabled = false <;> simp [step, ping, h]
  | close n =>
      by_cases h : hasTask s.tasks n <;> simp [step, close_timeout, h]
  | loop now => rfl

theorem step_timed_out_mono (hb : String) (s : ClientState) (a : Action)
    (x : String) (h : x ∈ s.timed_out_tasks) :
    x ∈ (step hb s a).timed_out_tasks := by
  cases a with
  | ping n t now =>
      by_cases he : s.enabled = false <;> simp [step, ping, he] <;> exact h
  | close n =>
      by_cases hc : hasTask s.tasks n <;> simp [step, close_timeout, hc] <;> exact h
  | loop now => exact bg_iter_timed_out_mono hb now s x h

theorem run_timed_out_mono (hb : String) (s : ClientState) (acts : List Action)
    (x : String) (h : x ∈ s.timed_out_tasks) :
    x ∈ (run hb s acts).timed_out_tasks := by
  induction acts generalizing s with
  | nil => exact h
  | cons a rest ih => exact ih _ (step_timed_out_mono hb s a x h)

theorem run_enabled (hb : String) (s : ClientState) (acts : List Action) :
    (run hb s acts).enabled = s.enabled := by
  induction acts generalizing s with
  | nil => rfl
  | cons a rest ih => rw [run, ih, step_enabled]

/-- A `delTask` never introduces a key. -/
theorem hasTask_delTask_mono {m : TaskMap} {k x : String}
    (h : hasTask m x = false) : hasTask (delTask m k) x = false := by
  by_cases hk : x = k
  · subst hk; exact hasTask_delTask_self m x
  · rw [hasTask_delTask_ne m k x hk]; exact h

/-- One step preserves key uniqueness and — provided the step does not ping
the reserved heartbeat name — the property that a non-empty timed-out set
forces the heartbeat task out of the task map. -/
theorem step_nodup_hb_out (hb : String) (s : ClientState) (a : Action)
    (hnd : (keys s.tasks).Nodup)
    (hJ : s.timed_out_tasks ≠ [] → hasTask s.tasks hb = false)
    (ha : a.pingName ≠ some hb) :
    (keys (step hb s a).tasks).Nodup ∧
      ((step hb s a).timed_out_tasks ≠ [] →
        hasTask (step hb s a).tasks hb = false) := by
  cases a with
  | ping n t now =>
      have hn : n ≠ hb := by
        intro hx
        exact ha (by rw [Action.pingName, hx])
      by_cases he : s.enabled = false
      · simp only [step, ping, he, if_true]
        exact ⟨hnd, hJ⟩
      · have hstep : step hb s (Action.ping n t now) =
            { s with tasks := setTask s.tasks n (now + t * 1000) } := by
          simp [step, ping, he]
        rw [hstep]
        refine ⟨keys_setTask_nodup _ _ hnd, fun hne => ?_⟩
        show hasTask (setTask s.tasks n (now + t * 1000)) hb = false
        rw [hasTask_setTask_ne s.tasks n hb _ (Ne.symm hn)]
        exact hJ hne
  | close n =>
      by_cases hc : hasTask s.tasks n
      · simp only [step, close_timeout, hc, if_true]
        exact ⟨keys_delTask_nodup n hnd, fun hne => hasTask_delTask_mono (hJ hne)⟩
      · simp only [step, close_timeout, hc]
        exact ⟨by simpa [hc] using hnd, by simpa [hc] using hJ⟩
  | loop now =>
      exact ⟨bg_iter_keys_nodup hb now s hnd, bg_iter_hb_out hb now s hJ⟩

theorem run_nodup_hb_out (hb : String) (s : ClientState) (pre : List Action)
    (hnd : (keys s.tasks).Nodup)
    (hJ : s.timed_out_tasks ≠ [] → hasTask s.tasks hb = false)
    (hpre : ∀ a ∈ pre, a.pingName ≠ some hb) :
    (keys (run hb s pre).tasks).Nodup ∧
      ((run hb s pre).timed_out_tasks ≠ [] →
        hasTask (run hb s pre).tasks hb = false) := by
  induction pre generalizing s with
  | nil => exact ⟨hnd, hJ⟩
  | cons a rest ih =>
      obtain ⟨h1, h2⟩ :=
        step_nodup_hb_out hb s a hnd hJ (hpre a (List.mem_cons_self a rest))
      exact ih _ h1 h2 (fun b hb1 => hpre b (List.mem_cons_of_mem a hb1))

/-- In a disabled lifecycle state (empty task map, sentinel next-check) every
action is an observable no-op. -/
theorem step_disabled_fixed (hb : String) (s : ClientState) (a : Action)
    (hen : s.enabled = false) (htk : s.tasks = [])
    (hnc : s.next_check = DISTANT_FUTURE) : step hb s a = s := by
  cases a with
  | ping n t now => simp [step, ping, hen]
  | close n => simp [step, close_timeout, hasTask, htk, getTask]
  | loop now =>
      have hkeys : keys s.tasks = [] := by rw [htk]; rfl
      show (background_loop_iter hb now s).1 = s
      unfold background_loop_iter
      rw [hkeys]
      show ({ s with tasks := s.tasks,
                     timed_out_tasks := s.timed_out_tasks,
                     next_check := DISTANT_FUTURE } : ClientState) = s
      rw [← hnc]

theorem run_disabled_fixed (hb : String) (s : ClientState) (acts : List Action)
    (hen : s.enabled = false) (htk : s.tasks = [])
    (hnc : s.next_check = DISTANT_FUTURE) : run hb s acts = s := by
  induction acts with
  | nil => rfl
  | cons a rest ih => rw [run, step_disabled_fixed hb s a hen htk hnc, ih]

/-! ### Shutdown waiter (`wait_for_shutdown_event`) -/

/-- Result of `win32event.OpenEvent`: pywin32 raises an exception on failure
(`raised`) or returns an event handle; a falsy null handle (`handle none`) is
included to mirror the defensive `if event_handle:` guard in the source. -/
inductive OpenEventResult where
  | raised : OpenEventResult
  | handle : Option Nat → OpenEventResult
deriving DecidableEq

/-- `win32event.WAIT_TIMEOUT` (0x102). -/
def WAIT_TIMEOUT : Nat := 258

/-- Observable outcome of one `wait_for_shutdown_event` call: the returned
boolean, whether `time.sleep(timeout)` ran, whether `WaitForSingleObject`
ran, and whether the `except:` branch logged an error. -/
structure WaitOutcome where
  result : Bool
  slept : Bool
  waited : Bool
  logged_error : Bool
deriving DecidableEq

/-- `SvcWatchDogClient.wait_for_shutdown_event`, with the OS interaction
(`OpenEvent` outcome and `WaitForSingleObject` return value) passed in as
oracle parameters.  The timeout value itself only scales the sleep/wait
durations and carries no branching information. -/
def wait_for_shutdown_event (shutdown_event : String)
    (openRes : OpenEventResult) (waitRetval : Nat) : WaitOutcome :=
  if shutdown_event = "" then ⟨false, true, false, false⟩
  else
    match openRes with
    | OpenEventResult.handle (some _) =>
        ⟨decide (waitRetval ≠ WAIT_TIMEOUT), false, true, false⟩
    | OpenEventResult.handle none => ⟨false, true, false, false⟩
    | OpenEventResult.raised => ⟨false, true, false, true⟩

/-! ### `TimeoutDetector` -/

/-- The instance attributes of `TimeoutDetector`. -/
structure TimeoutDetector where
  name : String
  closed : Bool
deriving DecidableEq

/-- `TimeoutDetector.__init__`: choose the (optionally UUID-suffixed) task
name and immediately register it with `ping`.  `fresh_uuid` stands for the
`uuid.uuid4()` draw; `with_uuid` is the `name_postfix` flag. -/
def TimeoutDetector.init (name : String) (timeout_seconds : Int)
    (fresh_uuid : String) (with_uuid : Bool) (now : Int) (s : ClientState) :
    TimeoutDetector × ClientState :=
  let n := if with_uuid then name ++ "." ++ fresh_uuid else name
  (⟨n, false⟩, (ping n timeout_seconds now s).1)

/-- `TimeoutDetector.__enter__`: no body except an implicit `return None`. -/
def TimeoutDetector.enter (_d : TimeoutDetector) (s : ClientState) :
    Option Unit × ClientState := (none, s)

/-- `TimeoutDetector.__exit__`: close the timeout on first release, do
nothing on a repeated release. -/
def TimeoutDetector.exit (d : TimeoutDetector) (s : ClientState) :
    TimeoutDetector × ClientState :=
  if d.closed = false then
    ({ d with closed := true }, close_timeout d.name s)
  else (d, s)

/-! ### Concrete demonstration states -/

/-- Stand-in for the process-unique `_udpPing.<uuid4>` reserved name. -/
def hbDemo : String := "_udpPing.u"

/-- The environment of the test suite (`simulate_external_wd`). -/
def envDemo : Env :=
  ⟨some ("shutDownEvent"), some ("rubbish"), some ("12345")⟩

/-- State after `initialize` (defaults) and `start` with `envDemo`. -/
def startedDemo : ClientState :=
  (start hbDemo envDemo (initializeClient true 10 initialState)).1

/-- State after `initialize` and `start` with no environment variables set. -/
def startedNoPort : ClientState :=
  (start hbDemo ⟨none, none, none⟩ (initializeClient true 10 initialState)).1

/-! ### Claims -/

/-- Claim C1, counterexample: the "never in both" half of the claim is false.
After task `a` misses its deadline (latched into the timed-out set, removed
from the task map) a later `ping("a", …)` re-inserts `a` into the task map
while `a` is still in the timed-out set, so `a` is in both at once and a name
did move back into the task map. -/
theorem C1_counterexample :
    hasTask (run hbDemo startedDemo
      [Action.ping ("a") 1 0, Action.loop 2000,
       Action.ping ("a") 5 2000]).tasks ("a") = true ∧
    ("a") ∈ (run hbDemo startedDemo
      [Action.ping ("a") 1 0, Action.loop 2000,
       Action.ping ("a") 5 2000]).timed_out_tasks := by
  decide

/-- Claim C1 (amended): the transition into the timed-out set is one-way —
once a name is in the timed-out set it stays there across every later ping,
close_timeout and scheduler iteration of the lifecycle; it is never removed.
However `ping` may re-insert such a name into the task map, so "never in
both" does not hold (see the counterexample). -/
theorem C1_amended (hb : String) (s : ClientState) (acts : List Action)
    (x : String) (h : x ∈ s.timed_out_tasks) :
    x ∈ (run hb s acts).timed_out_tasks :=
  run_timed_out_mono hb s acts x h

/-- Witness for C1 (amended) at a concrete latched state. -/
theorem C1_amended_witness :
    ("a") ∈ (run hbDemo startedDemo
      [Action.ping ("a") 1 0, Action.loop 2000]).timed_out_tasks ∧
    ("a") ∈ (run hbDemo
      (run hbDemo startedDemo [Action.ping ("a") 1 0, Action.loop 2000])
      [Action.close ("a"), Action.loop 3000]).timed_out_tasks :=
  ⟨by decide,
   C1_amended hbDemo
     (run hbDemo startedDemo [Action.ping ("a") 1 0, Action.loop 2000])
     [Action.close ("a"), Action.loop 3000] ("a") (by decide)⟩

/-- Claim C2: within one lifecycle, once the timed-out set is non-empty the
reserved heartbeat task name is absent from the task map at every prefix of
the action sequence, provided no action pings the reserved name (its fresh
UUID suffix keeps it out of reach of client code) — matching the code, which
deletes the heartbeat task in the same critical section that latches a
timeout and never re-adds it once a timeout was detected. -/
theorem C2_hb_absent_after_latch (hb : String) (s : ClientState)
    (acts pre suf : List Action)
    (hnd : (keys s.tasks).Nodup)
    (hJ : s.timed_out_tasks ≠ [] → hasTask s.tasks hb = false)
    (hhb : ∀ a ∈ acts, a.pingName ≠ some hb)
    (hsplit : acts = pre ++ suf) :
    (run hb s pre).timed_out_tasks ≠ [] →
      hasTask (run hb s pre).tasks hb = false := by
  refine (run_nodup_hb_out hb s pre hnd hJ ?_).2
  intro a hap
  refine hhb a ?_
  rw [hsplit]
  exact List.mem_append_left suf hap

/-- Witness for C2 on a concrete latching trace. -/
theorem C2_witness :
    (run hbDemo startedDemo
      [Action.ping ("a") 1 0, Action.loop 2000]).timed_out_tasks ≠ [] ∧
    hasTask (run hbDemo startedDemo
      [Action.ping ("a") 1 0, Action.loop 2000]).tasks hbDemo = false :=
  ⟨by decide,
   C2_hb_absent_after_latch hbDemo startedDemo
     [Action.ping ("a") 1 0, Action.loop 2000]
     [Action.ping ("a") 1 0, Action.loop 2000] []
     (by decide) (by decide) (by decide) rfl (by decide)⟩

/-- Claim C3, counterexample: the claimed invariant does not hold in every
reachable state.  `ping` writes the new deadline but leaves `next_check`
untouched (it only fires the trigger), so right after the first ping the task
map holds `("a", 5000)` while `next_check` is still the sentinel
`0x7fffffff`, violating `next_check ≤ min(deadlines)`. -/
theorem C3_counterexample :
    getTask (run hbDemo startedNoPort [Action.ping ("a") 5 0]).tasks ("a")
        = some 5000 ∧
    ¬((run hbDemo startedNoPort [Action.ping ("a") 5 0]).next_check ≤ 5000) := by
  decide

/-- Claim C3 (amended): immediately after a scheduler iteration at time
`now`, `next_check` is a lower bound on every task deadline that is still in
the future, and it equals the sentinel when the task map is empty provided
the iteration latched no timeout.  (Between a ping and the next iteration
`next_check` may exceed a deadline, and a deadline already in the past — a
re-pinged timed-out task — is never counted.) -/
theorem C3_amended (hb : String) (now : Int) (s : ClientState)
    (hnd : (keys s.tasks).Nodup) :
    (∀ p ∈ (background_loop_iter hb now s).1.tasks, now < p.2 →
      (background_loop_iter hb now s).1.next_check ≤ p.2) ∧
    ((background_loop_iter hb now s).2.1 = false →
      (background_loop_iter hb now s).1.tasks = [] →
      (background_loop_iter hb now s).1.next_check = DISTANT_FUTURE) :=
  ⟨bg_iter_cov hb now s hnd, bg_iter_empty_sentinel hb now s⟩

/-- Witness for C3 (amended) on a concrete iteration. -/
theorem C3_amended_witness :
    (keys (run hbDemo startedDemo [Action.ping ("a") 1 0]).tasks).Nodup ∧
    (∀ p ∈ (background_loop_iter hbDemo 2000
        (run hbDemo startedDemo [Action.ping ("a") 1 0])).1.tasks,
      2000 < p.2 →
      (background_loop_iter hbDemo 2000
        (run hbDemo startedDemo [Action.ping ("a") 1 0])).1.next_check ≤ p.2) :=
  ⟨by decide,
   (C3_amended hbDemo 2000
     (run hbDemo startedDemo [Action.ping ("a") 1 0]) (by decide)).1⟩

/-- Claim C4, counterexample: `start` stores the constant `1` as the
heartbeat deadline (`cls._tasks[cls._udp_ping_task_name] = 1`), not
`now + 1`.  At a start executed while the monotonic clock reads 5000 ms the
claim predicts deadline `5001`; the code stores `1`. -/
theorem C4_counterexample :
    getTask (start hbDemo envDemo
      (initializeClient true 10 initialState)).1.tasks hbDemo = some 1 ∧
    getTask (start hbDemo envDemo
      (initializeClient true 10 initialState)).1.tasks hbDemo
        ≠ some (5000 + 1) := by
  decide

/-- Claim C4 (amended): when `start` runs in a non-stopped, enabled state and
`WATCHDOG_PORT` is present, non-empty and parses as an integer, it raises
nothing, records the port, and sets the reserved heartbeat task's deadline to
the constant 1 ms — a deadline already in the past on the monotonic scale, so
the first loop iteration emits a ping promptly. -/
theorem C4_amended (hb : String) (env : Env) (s : ClientState)
    (portStr : String) (port : Int)
    (hstop : s.stopped = false) (hen : s.enabled = true)
    (hport : env.watchdogPort = some portStr) (hne : portStr ≠ "")
    (hparse : pyInt? portStr = some port) :
    (start hb env s).2 = none ∧
    (start hb env s).1.udp_port = port ∧
    getTask (start hb env s).1.tasks hb = some 1 := by
  simp [start, hstop, hen, hport, hne, hparse, getTask_setTask_self]

/-- Witness for C4 (amended) at the test-suite environment. -/
theorem C4_amended_witness :
    (start hbDemo envDemo (initializeClient true 10 initialState)).2 = none ∧
    (start hbDemo envDemo (initializeClient true 10 initialState)).1.udp_port
        = 12345 ∧
    getTask (start hbDemo envDemo
      (initializeClient true 10 initialState)).1.tasks hbDemo = some 1 :=
  C4_amended hbDemo envDemo (initializeClient true 10 initialState)
    ("12345") 12345 rfl rfl rfl (by decide) (by decide)

/-- Claim C5: with no shutdown event name configured the call sleeps for the
timeout and returns false without waiting; with a handle obtained it waits
and returns true exactly when the wait did not time out, without sleeping;
if `OpenEvent` raises it logs an error, sleeps and returns false. -/
theorem C5_wait_contract (name : String) (openRes : OpenEventResult)
    (retval : Nat) :
    (name = "" →
      wait_for_shutdown_event name openRes retval = ⟨false, true, false, false⟩) ∧
    (name ≠ "" → ∀ h, openRes = OpenEventResult.handle (some h) →
      ((wait_for_shutdown_event name openRes retval).result = true ↔
        retval ≠ WAIT_TIMEOUT) ∧
      (wait_for_shutdown_event name openRes retval).waited = true ∧
      (wait_for_shutdown_event name openRes retval).slept = false) ∧
    (name ≠ "" → openRes = OpenEventResult.raised →
      wait_for_shutdown_event name openRes retval = ⟨false, true, false, true⟩) := by
  refine ⟨fun h0 => ?_, fun h0 h hopen => ?_, fun h0 hopen => ?_⟩
  · simp [wait_for_shutdown_event, h0]
  · subst hopen
    simp [wait_for_shutdown_event, h0]
  · subst hopen
    simp [wait_for_shutdown_event, h0]

/-- Witness for C5 with a successfully opened handle and a signaled wait. -/
theorem C5_witness :
    ((wait_for_shutdown_event ("shutDownEvent")
        (OpenEventResult.handle (some 7)) 0).result = true ↔
      (0 : Nat) ≠ WAIT_TIMEOUT) ∧
    (wait_for_shutdown_event ("shutDownEvent")
        (OpenEventResult.handle (some 7)) 0).waited = true ∧
    (wait_for_shutdown_event ("shutDownEvent")
        (OpenEventResult.handle (some 7)) 0).slept = false :=
  (C5_wait_contract ("shutDownEvent") (OpenEventResult.handle (some 7)) 0).2.1
    (by decide) 7 rfl

/-- Claim C6: in any state with the terminal stop flag set (stop was called
and initialize has not reset it), `start` raises the fatal RuntimeError to
the caller and the runtime state is returned unchanged — the raise happens
before any mutation. -/
theorem C6_start_after_stop (hb : String) (env : Env) (s : ClientState)
    (h : s.stopped = true) :
    start hb env s =
      (s, some ("SvcWatchDogClient is already stopped, not allowed to start it again.")) := by
  simp [start, h]

/-- Witness for C6 right after a concrete `stop`. -/
theorem C6_witness :
    start hbDemo envDemo (stop startedDemo) =
      (stop startedDemo,
       some ("SvcWatchDogClient is already stopped, not allowed to start it again.")) :=
  C6_start_after_stop hbDemo envDemo (stop startedDemo) rfl

/-- Claim C7: in a lifecycle initialized with `Enabled=false`, every
interleaving of pings, close_timeouts and loop iterations leaves the state
after `start` literally unchanged; in particular `ping` and `close_timeout`
are observable no-ops, `task_list()` stays empty and no timeout is ever
reported. -/
theorem C7_disabled_noop (hb : String) (itv : Int) (env : Env)
    (acts : List Action) (n : String) (t now : Int) :
    run hb (start hb env (initializeClient false itv initialState)).1 acts =
      (start hb env (initializeClient false itv initialState)).1 ∧
    task_list (start hb env (initializeClient false itv initialState)).1 = [] ∧
    is_timed_out (run hb
      (start hb env (initializeClient false itv initialState)).1 acts) = false ∧
    (ping n t now (start hb env (initializeClient false itv initialState)).1).1 =
      (start hb env (initializeClient false itv initialState)).1 ∧
    close_timeout n (start hb env (initializeClient false itv initialState)).1 =
      (start hb env (initializeClient false itv initialState)).1 := by
  have hen : (start hb env (initializeClient false itv initialState)).1.enabled
      = false := rfl
  have htk : (start hb env (initializeClient false itv initialState)).1.tasks
      = [] := rfl
  have hnc : (start hb env (initializeClient false itv initialState)).1.next_check
      = DISTANT_FUTURE := rfl
  have hrun := run_disabled_fixed hb _ acts hen htk hnc
  refine ⟨hrun, rfl, ?_, by simp [ping, hen], by simp [close_timeout, hasTask, htk, getTask]⟩
  rw [hrun]
  simp [is_timed_out, hen]

/-- Claim C8: the latch is monotone — whenever `is_timed_out()` observes
true, every later observation within the lifecycle (after any pings,
close_timeouts and scheduler iterations) is also true: the timed-out set only
grows and the enabled flag is untouched by these operations. -/
theorem C8_latch_monotone (hb : String) (s : ClientState) (acts : List Action)
    (h : is_timed_out s = true) : is_timed_out (run hb s acts) = true := by
  simp only [is_timed_out, Bool.and_eq_true, decide_eq_true_eq] at h ⊢
  refine ⟨by rw [run_enabled]; exact h.1, ?_⟩
  obtain ⟨x, hx⟩ := List.exists_mem_of_length_pos h.2
  exact List.length_pos_of_mem (run_timed_out_mono hb s acts x hx)

/-- Witness for C8 on a concrete latched state and a mixed action tail. -/
theorem C8_witness :
    is_timed_out (run hbDemo startedDemo
      [Action.ping ("a") 1 0, Action.loop 2000]) = true ∧
    is_timed_out (run hbDemo
      (run hbDemo startedDemo [Action.ping ("a") 1 0, Action.loop 2000])
      [Action.close ("a"), Action.ping ("b") 1 2500, Action.loop 9999]) = true :=
  ⟨by decide,
   C8_latch_monotone hbDemo
     (run hbDemo startedDemo [Action.ping ("a") 1 0, Action.loop 2000])
     [Action.close ("a"), Action.ping ("b") 1 2500, Action.loop 9999]
     (by decide)⟩

/-- Claim C9: `close_timeout` is idempotent — closing the same name twice
equals closing it once; a name not in the task map leaves the state
unchanged; and the timed-out set is never touched. -/
theorem C9_close_timeout_idempotent (s : ClientState) (n : String) :
    close_timeout n (close_timeout n s) = close_timeout n s ∧
    (hasTask s.tasks n = false → close_timeout n s = s) ∧
    (close_timeout n s).timed_out_tasks = s.timed_out_tasks := by
  refine ⟨?_, fun hf => by simp [close_timeout, hf], ?_⟩
  · by_cases h : hasTask s.tasks n
    · have h1 : close_timeout n s = { s with tasks := delTask s.tasks n } := by
        simp [close_timeout, h]
      rw [h1]
      have h2 : hasTask ({ s with tasks := delTask s.tasks n } :
          ClientState).tasks n = false := hasTask_delTask_self _ _
      simp [close_timeout, h2]
    · simp [close_timeout, h]
  · by_cases h : hasTask s.tasks n <;> simp [close_timeout, h]

/-- Witness for C9: closing a name absent from a concrete state. -/
theorem C9_witness :
    hasTask startedDemo.tasks ("a") = false ∧
    close_timeout ("a") startedDemo = startedDemo :=
  ⟨by decide, (C9_close_timeout_idempotent startedDemo ("a")).2.1 (by decide)⟩

/-- Claim C10: `TimeoutDetector` registers its (optionally UUID-suffixed)
task via `ping` at construction; `__enter__` changes no state and returns
None; a constructed detector (enabled agent) has its deadline registered
until `__exit__`; `__exit__` closes the timeout exactly once, a second
`__exit__` being a no-op guarded by the closed flag. -/
theorem C10_timeout_detector (name : String) (t : Int) (fresh : String)
    (wu : Bool) (now : Int) (s : ClientState) :
    (TimeoutDetector.init name t fresh wu now s).1.closed = false ∧
    (TimeoutDetector.init name t fresh wu now s).2 =
      (ping (TimeoutDetector.init name t fresh wu now s).1.name t now s).1 ∧
    (s.enabled = true →
      getTask (TimeoutDetector.init name t fresh wu now s).2.tasks
        (TimeoutDetector.init name t fresh wu now s).1.name
        = some (now + t * 1000)) ∧
    (∀ (d : TimeoutDetector) (s2 : ClientState),
      TimeoutDetector.enter d s2 = (none, s2)) ∧
    (∀ (d : TimeoutDetector) (s2 : ClientState), d.closed = false →
      TimeoutDetector.exit d s2 =
        ({ d with closed := true }, close_timeout d.name s2)) ∧
    (∀ (d : TimeoutDetector) (s2 : ClientState), d.closed = true →
      TimeoutDetector.exit d s2 = (d, s2)) ∧
    (∀ (d : TimeoutDetector) (s2 : ClientState),
      TimeoutDetector.exit (TimeoutDetector.exit d s2).1
        (TimeoutDetector.exit d s2).2 = TimeoutDetector.exit d s2) := by
  refine ⟨rfl, rfl, fun hen => ?_, fun d s2 => rfl, fun d s2 h => ?_,
    fun d s2 h => ?_, fun d s2 => ?_⟩
  · simp [TimeoutDetector.init, ping, hen, getTask_setTask_self]
  · simp [TimeoutDetector.exit, h]
  · simp [TimeoutDetector.exit, h]
  · by_cases h : d.closed = false
    · simp [TimeoutDetector.exit, h]
    · simp [TimeoutDetector.exit, h]

/-- Witness for C10 on a concrete enabled state. -/
theorem C10_witness :
    startedDemo.enabled = true ∧
    getTask (TimeoutDetector.init ("task2") 2 ("x") true 0 startedDemo).2.tasks
      (TimeoutDetector.init ("task2") 2 ("x") true 0 startedDemo).1.name
      = some (0 + 2 * 1000) :=
  ⟨by decide,
   (C10_timeout_detector ("task2") 2 ("x") true 0 startedDemo).2.2.1 (by decide)⟩

end SvcWatchDog
